import Mathlib

/-!
Verification of the kuehlmak keyboard-layout evaluator (`src/eval.rs`).

This file gives a shallow embedding of the data model and the operations of
the evaluator in Lean 4 and settles a list of claims about them.  The
embedding follows the Rust source:

* machine integers (`u8`, `u64`, `usize`) become `Nat` (no operation in the
  modelled fragment overflows on the inputs the theorems quantify over;
  where this needs an argument it is given in a comment next to the
  definition);
* `f32`/`f64` arithmetic is modelled exactly over `ℚ`; the one place where
  an IEEE special value matters (division by zero in `eval_forced_coded`)
  is modelled by an explicit extended-value type `FVal`;
* fallible code (`Result`) becomes `Except String`;
* the corpus statistics object `TextStats` is external to the repository
  and enters only through the interface the evaluator consumes (lists of
  n-gram counts in descending order, totals).
-/

namespace Kuehlmak

/-! ### mirror_key (src/eval.rs lines 173-176)

`fn mirror_key(k: u8) -> u8 { k + 9 - 2 * (k % 10) }`.

In `u8` arithmetic `k + 9` overflows only for `k ≥ 247` and the subtraction
never underflows (`k + 9 ≥ 2·(k % 10)` for every `k`), so on the key
indices `k < 30` that the program uses the `u8` computation agrees with the
`Nat` computation below. -/

def mirror_key (k : ℕ) : ℕ := k + 9 - 2 * (k % 10)

/-! ### KuehlmakScores::get_wt_score (src/eval.rs lines 768-781)

The weighted per-component contribution to the total score.  `f64`
arithmetic is modelled over `ℚ`; in every branch that divides, the divisor
is positive, so exact arithmetic is faithful. -/

def get_wt_score (score weight factor : ℚ) (target : Option ℚ) : ℚ :=
  match target with
  | some t =>
    if factor > 0 then
      let f := if weight < 0 then factor⁻¹ else factor
      if score ≤ t then
        score / f * weight
      else
        (score * f + t * (f⁻¹ - f)) * weight
    else weight * score
  | none => weight * score

/-- The per-component contribution as the spec words it (spec §4.4 step 12):
if no target or φ ≤ 0 the contribution is `w·s`; otherwise with
`φ' = φ` when `w ≥ 0` and `φ' = 1/φ` when `w < 0`, the contribution is
`(s/φ')·w` for `s ≤ t` and `(s·φ' + t·(1/φ' − φ'))·w` for `s > t`. -/
def wt_score_spec (s w φ : ℚ) (target : Option ℚ) : ℚ :=
  match target with
  | none => w * s
  | some t =>
    if φ ≤ 0 then w * s
    else
      let φ' := if w ≥ 0 then φ else φ⁻¹
      if s ≤ t then s / φ' * w else (s * φ' + t * (φ'⁻¹ - φ')) * w

/-! ### The bigram walk of calc_ngrams (src/eval.rs lines 972-979)

`calc_ngrams` computes `percentile = (ts.total_bigrams() as f64 * precision)
as u64` and then iterates the bigrams (supplied by `TextStats` in
descending count order), breaking out of the loop as soon as the running
count total exceeds `percentile`; the break is checked before a bigram is
consumed.  Only the counts matter for the truncation, so the walk is
modelled on the list of counts. -/

def walk_bigrams (percentile : ℕ) : ℕ → List ℕ → List ℕ
  | _, [] => []
  | acc, c :: rest =>
    if acc > percentile then [] else c :: walk_bigrams percentile (acc + c) rest

/-- `(ts.total_bigrams() as f64 * precision) as u64` — the `as u64` cast of a
non-negative `f64` truncates, i.e. takes the floor. -/
def calc_percentile (total_bigrams : ℕ) (precision : ℚ) : ℕ :=
  (⌊(total_bigrams : ℚ) * precision⌋).toNat

/-- The walk the spec describes, at threshold `thr`: take the shortest
prefix of `counts` whose sum exceeds `thr` ("stop as soon as the cumulative
count exceeds the threshold"), or the whole list if the total never
exceeds it. -/
def spec_walk (thr : ℕ) (counts : List ℕ) : List ℕ :=
  counts.take
    (((List.range (counts.length + 1)).find?
        (fun n => decide (thr < (counts.take n).sum))).getD counts.length)

/-- `eval_layout` (line 828) calls `calc_ngrams` with precision
`0.9 + precision * 0.1`, remapping its own `precision` argument. -/
def eval_layout_precision (p : ℚ) : ℚ := 9/10 + p * (1/10)

/-- The list of bigram counts that `eval_layout` at precision `p` actually
walks, for a corpus whose bigram counts (in descending order) are `counts`
and whose `total_bigrams` is `tb`. -/
def eval_layout_bigram_walk (p : ℚ) (counts : List ℕ) (tb : ℕ) : List ℕ :=
  walk_bigrams (calc_percentile tb (eval_layout_precision p)) 0 counts

/-! ### The finger-travel correction of calc_ngrams
(src/eval.rs lines 962-970, 998-1003, 1013-1016, 1065-1071, 1077-1080)

Per finger, `calc_ngrams` starts from the home-distance estimate, adds a
correction `(d_rel·4 − d_abs)·count` for each walked SFB/SameKey bigram
landing on that finger, then updates
`travel += (travel − orig) * (1.0 − precision)`; the same is repeated for
the trigram corrections `(d_rel·2 − d_abs)·count` with `orig` re-snapshotted
between the two stages. -/

structure TravelEntry where
  d_rel : ℚ
  d_abs : ℚ
  count : ℕ

def bigram_travel_step (t : ℚ) (e : TravelEntry) : ℚ :=
  t + (e.d_rel * 4 - e.d_abs) * (e.count : ℚ)

def trigram_travel_step (t : ℚ) (e : TravelEntry) : ℚ :=
  t + (e.d_rel * 2 - e.d_abs) * (e.count : ℚ)

/-- `*travel += (*travel - orig) * (1.0 - precision)` (lines 1013-1016 and
1077-1080), as a function of the corrected value `t`, the snapshot `o` and
the precision `p`. -/
def travel_lerp (t o p : ℚ) : ℚ := t + (t - o) * (1 - p)

/-- The final travel of one finger as computed by `calc_ngrams` at precision
`p`, from the initial home-distance estimate `o` and the walked bigram and
trigram correction entries of that finger. -/
def calc_ngrams_finger_travel (o : ℚ) (bs ts : List TravelEntry) (p : ℚ) : ℚ :=
  let t1 := bs.foldl bigram_travel_step o
  let t1l := travel_lerp t1 o p
  let t2 := ts.foldl trigram_travel_step t1l
  travel_lerp t2 t1l p

/-- The SFB/SameKey-corrected travel of one finger: home-distance estimate
plus all corrections, with no lerp applied. -/
def corrected_finger_travel (o : ℚ) (bs ts : List TravelEntry) : ℚ :=
  ts.foldl trigram_travel_step (bs.foldl bigram_travel_step o)

/-! ### Hands, fingers, keyboard types (src/eval.rs lines 178-210) -/

inductive Hand where
  | L
  | R
  | Any
deriving DecidableEq, Repr

inductive Finger where
  | Lp
  | Lr
  | Lm
  | Li
  | Th
  | Ri
  | Rm
  | Rr
  | Rp
deriving DecidableEq, Repr

/-- The discriminant of `Finger`.  Rust derives `PartialOrd`, which orders
fingers by discriminant; the source compares fingers and casts them to
`i8`/`usize` through this value. -/
def Finger.toNat : Finger → ℕ
  | .Lp => 0
  | .Lr => 1
  | .Lm => 2
  | .Li => 3
  | .Th => 4
  | .Ri => 5
  | .Rm => 6
  | .Rr => 7
  | .Rp => 8

inductive KeyboardType where
  | Ortho
  | ColStag
  | Hex
  | HexStag
  | ANSI
  | Angle
  | ISO
deriving DecidableEq, Repr

/-! ### Per-key hand/finger/stretch assignment
(src/eval.rs lines 1504-1551) -/

/-- The `_ => match col` arm of `key_props`: the column assignment shared by
all rows except Hex row 0 and Angle row 2. -/
def default_row_hfs (col : ℕ) : Hand × Finger × Bool :=
  match col with
  | 0 => (.L, .Lp, false)
  | 1 => (.L, .Lr, false)
  | 2 => (.L, .Lm, false)
  | 3 => (.L, .Li, false)
  | 4 => (.L, .Li, true)
  | 5 => (.R, .Ri, true)
  | 6 => (.R, .Ri, false)
  | 7 => (.R, .Rm, false)
  | 8 => (.R, .Rr, false)
  | _ => (.R, .Rp, false)

/-- The (hand, finger, is_stretch) triple of `KuehlmakModel::key_props` for
key `k = 10·row + col` (and `k = 30` for the thumb, whose hand is the
configured `space_thumb`).  Weights and geometry are not needed by the
classifier tables and are not modelled here.  The source asserts
`row < 3 || (row == 3 && col == 0)`; all theorems below use `k ≤ 30`. -/
def key_props_hfs (bt : KeyboardType) (st : Hand) (k : ℕ) :
    Hand × Finger × Bool :=
  let row := k / 10
  let col := k % 10
  if row = 3 then (st, .Th, false)
  else match bt with
  | .Hex | .HexStag =>
    if row = 0 then
      match col with
      | 0 => (.L, .Lp, true)
      | 1 => (.L, .Lp, false)
      | 2 => (.L, .Lr, false)
      | 3 => (.L, .Lm, false)
      | 4 => (.L, .Li, false)
      | 5 => (.R, .Ri, false)
      | 6 => (.R, .Rm, false)
      | 7 => (.R, .Rr, false)
      | 8 => (.R, .Rp, false)
      | _ => (.R, .Rp, true)
    else default_row_hfs col
  | .Angle =>
    if row = 2 then
      match col with
      | 0 => (.L, .Lr, false)
      | 1 => (.L, .Lm, false)
      | 2 => (.L, .Li, false)
      | 3 => (.L, .Li, true)
      | 4 => (.L, .Li, true)
      | 5 => (.R, .Ri, true)
      | 6 => (.R, .Ri, false)
      | 7 => (.R, .Rm, false)
      | 8 => (.R, .Rr, false)
      | _ => (.R, .Rp, false)
    else default_row_hfs col
  | _ => default_row_hfs col

def keyHand (bt : KeyboardType) (st : Hand) (k : ℕ) : Hand :=
  (key_props_hfs bt st k).1

def keyFinger (bt : KeyboardType) (st : Hand) (k : ℕ) : Finger :=
  (key_props_hfs bt st k).2.1

def keyStretch (bt : KeyboardType) (st : Hand) (k : ℕ) : Bool :=
  (key_props_hfs bt st k).2.2

/-! ### The scissor list (src/eval.rs lines 1335-1381) -/

/-- Left-hand left-to-right scissors (lines 1340-1343). -/
def scissors_lr_base : List (ℕ × ℕ) :=
  [(0, 11), (0, 21), (0, 12), (0, 22), (0, 23), (10, 21),
   (1, 22), (1, 23), (21, 2), (21, 3), (2, 23), (22, 3),
   (0, 24), (1, 24), (2, 24)]

/-- Top-row shift for Hex boards: `0..=3 => b += 1` on each component. -/
def hex_adjust (b : ℕ × ℕ) : ℕ × ℕ :=
  (if b.1 ≤ 3 then b.1 + 1 else b.1, if b.2 ≤ 3 then b.2 + 1 else b.2)

/-- Bottom-row shift for the Angle board: `21..=24 => b -= 1`. -/
def angle_adjust (b : ℕ × ℕ) : ℕ × ℕ :=
  (if 21 ≤ b.1 ∧ b.1 ≤ 24 then b.1 - 1 else b.1,
   if 21 ≤ b.2 ∧ b.2 ≤ 24 then b.2 - 1 else b.2)

/-- The board-adjusted left-hand scissor list (lines 1344-1372). -/
def scissors_lr (bt : KeyboardType) : List (ℕ × ℕ) :=
  match bt with
  | .Hex | .HexStag =>
    scissors_lr_base.map hex_adjust ++
      [(0, 11), (0, 21), (0, 12), (0, 22), (0, 23), (0, 24),
       (20, 1), (20, 2), (20, 3)]
  | .Angle =>
    scissors_lr_base.map angle_adjust ++
      [(0, 24), (1, 24), (2, 24), (20, 4), (21, 4)]
  | _ =>
    scissors_lr_base ++
      [(20, 1), (20, 2), (20, 3), (20, 4), (21, 4), (22, 4)]

/-- The full scissor list: both directions on both hands (lines 1373-1381).
The source sorts this list and then tests membership with `binary_search`,
which on a sorted list succeeds exactly for members, so the model keeps the
unsorted list and uses `contains`. -/
def scissors (bt : KeyboardType) : List (ℕ × ℕ) :=
  let lr := scissors_lr bt
  lr ++ lr.map (fun b => (b.2, b.1)) ++
    lr.map (fun b => (mirror_key b.1, mirror_key b.2)) ++
    lr.map (fun b => (mirror_key b.2, mirror_key b.1))

/-! ### Bigram and trigram type tables
(src/eval.rs lines 1383-1472 and 1600-1625) -/

def BIGRAM_ALTERNATE : ℕ := 0
def BIGRAM_DROLL : ℕ := 1
def BIGRAM_UROLL : ℕ := 2
def BIGRAM_SAMEKEY : ℕ := 3
def BIGRAM_LSB3 : ℕ := 4
def BIGRAM_LSB2 : ℕ := 5
def BIGRAM_LSB1 : ℕ := 6
def BIGRAM_SCISSOR : ℕ := 7
def BIGRAM_SFB : ℕ := 8

def TRIGRAM_NONE : ℕ := 0
def TRIGRAM_D_SAMEKEY : ℕ := 1
def TRIGRAM_SHD_SAMEKEY : ℕ := 2
def TRIGRAM_D_SFB : ℕ := 3
def TRIGRAM_SHD_SFB : ℕ := 4
def TRIGRAM_D_DROLL : ℕ := 5
def TRIGRAM_D_UROLL : ℕ := 6
def TRIGRAM_D_LSB3 : ℕ := 7
def TRIGRAM_D_LSB2 : ℕ := 8
def TRIGRAM_D_LSB1 : ℕ := 9
def TRIGRAM_D_SCISSOR : ℕ := 10
def TRIGRAM_RROLL : ℕ := 11
def TRIGRAM_REDIRECT : ℕ := 12
def TRIGRAM_CONTORT : ℕ := 13

/-- The distance arms `1 => LSB1, 2 => LSB2, _ => LSB3` of the stretch
match (lines 1404-1406). -/
def lsb_by_distance (d : ℕ) : ℕ :=
  match d with
  | 1 => BIGRAM_LSB1
  | 2 => BIGRAM_LSB2
  | _ => BIGRAM_LSB3

/-- The same-hand classification of a key pair
(src/eval.rs lines 1395-1419). -/
def bigram_class (bt : KeyboardType) (st : Hand) (i j : ℕ) : ℕ :=
  if i = j then BIGRAM_SAMEKEY
  else if keyFinger bt st i = keyFinger bt st j then BIGRAM_SFB
  else if (keyStretch bt st i || keyStretch bt st j) ∧
      keyFinger bt st i ≠ Finger.Th ∧ keyFinger bt st j ≠ Finger.Th then
    if (keyStretch bt st i && keyStretch bt st j) ∨
        (scissors bt).contains (i, j) then BIGRAM_LSB1
    else lsb_by_distance
      (((keyFinger bt st i).toNat : ℤ) - ((keyFinger bt st j).toNat : ℤ)).natAbs
  else if (scissors bt).contains (i, j) then BIGRAM_SCISSOR
  else if keyFinger bt st i = Finger.Lr ∨ keyFinger bt st i = Finger.Rr then
    BIGRAM_DROLL
  else if (Finger.Li.toNat ≤ (keyFinger bt st i).toNat ∧
        (keyFinger bt st i).toNat ≤ Finger.Ri.toNat) ∨
      (Finger.Li.toNat ≤ (keyFinger bt st j).toNat ∧
        (keyFinger bt st j).toNat ≤ Finger.Ri.toNat) then
    if (((keyFinger bt st i).toNat : ℤ) - (Finger.Th.toNat : ℤ)).natAbs >
        (((keyFinger bt st j).toNat : ℤ) - (Finger.Th.toNat : ℤ)).natAbs then
      BIGRAM_DROLL
    else BIGRAM_UROLL
  else BIGRAM_UROLL

/-- `bigram_types[i][j]` (lines 1383-1421): the table is initialized to
`Alternate`; the construction loops skip pairs whose first key is on the
`Any` hand or whose hands differ, and classify the rest. -/
def bigram_types (bt : KeyboardType) (st : Hand) (i j : ℕ) : ℕ :=
  if keyHand bt st i = Hand.Any ∨ keyHand bt st i ≠ keyHand bt st j then
    BIGRAM_ALTERNATE
  else bigram_class bt st i j

/-- 255 models the `panic!("Unexpected disjointed same-hand trigram")` arm of
the match below; it is provably unreachable on the inputs the construction
visits. -/
def TRIGRAM_PANIC : ℕ := 255

/-- The disjointed same-hand-bigram match (src/eval.rs lines 1433-1443). -/
def trigram_d_code (b : ℕ) : ℕ :=
  if b = BIGRAM_SFB then TRIGRAM_D_SFB
  else if b = BIGRAM_DROLL then TRIGRAM_D_DROLL
  else if b = BIGRAM_UROLL then TRIGRAM_D_UROLL
  else if b = BIGRAM_SAMEKEY then TRIGRAM_D_SAMEKEY
  else if b = BIGRAM_LSB1 then TRIGRAM_D_LSB1
  else if b = BIGRAM_LSB2 then TRIGRAM_D_LSB2
  else if b = BIGRAM_LSB3 then TRIGRAM_D_LSB3
  else if b = BIGRAM_SCISSOR then TRIGRAM_D_SCISSOR
  else TRIGRAM_PANIC

/-- `trigram_types[i][j][k]` (src/eval.rs lines 1423-1472): the table is
initialized to `None`; the outer loops skip `h0 = Any` and `h2 = Any`. -/
def trigram_types (bt : KeyboardType) (st : Hand) (i j k : ℕ) : ℕ :=
  if keyHand bt st i = Hand.Any ∨ keyHand bt st k = Hand.Any then TRIGRAM_NONE
  else if keyHand bt st i = keyHand bt st k ∧
      keyHand bt st i ≠ keyHand bt st j then
    trigram_d_code (bigram_types bt st i k)
  else if keyHand bt st i = keyHand bt st j ∧
      keyHand bt st j = keyHand bt st k then
    if i = k ∧ keyFinger bt st i ≠ keyFinger bt st j then TRIGRAM_SHD_SAMEKEY
    else if keyFinger bt st i = keyFinger bt st k ∧
        keyFinger bt st i ≠ keyFinger bt st j then TRIGRAM_SHD_SFB
    else if BIGRAM_SAMEKEY ≤ bigram_types bt st i j ∧
        BIGRAM_SAMEKEY ≤ bigram_types bt st j k then TRIGRAM_CONTORT
    else if keyFinger bt st i ≠ keyFinger bt st j ∧
        keyFinger bt st j ≠ keyFinger bt st k ∧
        bigram_types bt st i k = BIGRAM_SCISSOR then TRIGRAM_CONTORT
    else if keyFinger bt st i ≠ keyFinger bt st j ∧
        keyFinger bt st j ≠ keyFinger bt st k ∧
        Xor' ((keyFinger bt st j).toNat < (keyFinger bt st k).toNat)
          ((keyFinger bt st i).toNat < (keyFinger bt st j).toNat) then
      TRIGRAM_REDIRECT
    else if BIGRAM_DROLL ≤ bigram_types bt st i j ∧
        bigram_types bt st i j < BIGRAM_LSB1 ∧
        BIGRAM_DROLL ≤ bigram_types bt st j k ∧
        bigram_types bt st j k < BIGRAM_LSB1 then TRIGRAM_RROLL
    else TRIGRAM_NONE
  else TRIGRAM_NONE

/-- The `d*` variant map as claim C6 states it: SFB→dSFB, DRoll→dDRoll,
URoll→dURoll, SameKey→dSameKey, LSB1/2/3→dLSB1/2/3, Scissor→dScissor.
Codes the claim does not list map to `TRIGRAM_NONE`. -/
def trigram_d_variant (b : ℕ) : ℕ :=
  if b = BIGRAM_SFB then TRIGRAM_D_SFB
  else if b = BIGRAM_DROLL then TRIGRAM_D_DROLL
  else if b = BIGRAM_UROLL then TRIGRAM_D_UROLL
  else if b = BIGRAM_SAMEKEY then TRIGRAM_D_SAMEKEY
  else if b = BIGRAM_LSB1 then TRIGRAM_D_LSB1
  else if b = BIGRAM_LSB2 then TRIGRAM_D_LSB2
  else if b = BIGRAM_LSB3 then TRIGRAM_D_LSB3
  else if b = BIGRAM_SCISSOR then TRIGRAM_D_SCISSOR
  else TRIGRAM_NONE

/-! ### The neighbor generator (src/eval.rs lines 873-903) -/

/-- A key of the layout: primary (unshifted) and secondary (shifted) glyph. -/
abbrev Key := Char × Char

/-- A layout for the neighbor generator, as the contents of the 30-element
key array; only indices below 30 are relevant. -/
def key_multiset (l : ℕ → Key) : Multiset Key :=
  (Multiset.range 30).map l

def primary_multiset (l : ℕ → Key) : Multiset Char :=
  (key_multiset l).map Prod.fst

/-- `layout.swap(a, b)`. -/
def swap_keys (a b : ℕ) (l : ℕ → Key) : ℕ → Key :=
  fun k => if k = a then l b else if k = b then l a else l k

/-- The symmetric enumeration order of the keys used to build `finger_keys`
(src/eval.rs lines 1484-1492): for each row, columns from the outside in,
left key then mirrored right key. -/
def symmetric_key_order : List ℕ :=
  (List.range 3).flatMap fun row =>
    (List.range 5).flatMap fun col => [row * 10 + col, row * 10 + 9 - col]

/-- `finger_keys[f]`: the key indices owned by finger discriminant `f`, in
the symmetric enumeration order (the source pushes each enumerated key onto
its finger's vector; filtering the enumeration keeps the same order). -/
def finger_keys_i (bt : KeyboardType) (st : Hand) (f : ℕ) : List ℕ :=
  symmetric_key_order.filter fun k => (keyFinger bt st k).toNat = f

/-- The random draws one call of `neighbor` consumes:
`op = rng.gen::<f64>()` (in `[0,1)`), `r = rng.gen_range(0..30*29)`,
`rf = rng.gen_range(0..8*7)` (drawn only on the finger-swap branch), and
the raw window draw `o`, reduced below by the modulus
`rng.gen_range(0..diff+1)` would use. -/
structure NeighborDraw where
  op : ℚ
  r : Fin 870
  rf : Fin 56
  o : ℕ

/-- `KuehlmakModel::neighbor`.  With `op·9 < 8` swap two random key
positions (ordered distinct pairs); otherwise pair two fingers (skipping
`Th`, discriminant 4), choose an aligned window if their key counts differ,
and swap each corresponding pair of keys. -/
def neighbor (bt : KeyboardType) (st : Hand) (d : NeighborDraw)
    (l : ℕ → Key) : ℕ → Key :=
  if d.op * 9 < 8 then
    let a := d.r.val / 29
    let b := (a + d.r.val % 29 + 1) % 30
    swap_keys a b l
  else
    let f0' := d.rf.val / 7
    let f1' := (f0' + d.rf.val % 7 + 1) % 8
    let f0 := if f0' < 4 then f0' else f0' + 1
    let f1 := if f1' < 4 then f1' else f1' + 1
    let fk0 := finger_keys_i bt st f0
    let fk1 := finger_keys_i bt st f1
    let rr : List ℕ × List ℕ :=
      if fk0.length = fk1.length then
        (List.range fk0.length, List.range fk1.length)
      else if fk0.length < fk1.length then
        let off := d.o % (fk1.length - fk0.length + 1)
        (List.range fk0.length, (List.range fk0.length).map (· + off))
      else
        let off := d.o % (fk0.length - fk1.length + 1)
        ((List.range fk1.length).map (· + off), List.range fk1.length)
    (rr.1.zip rr.2).foldl
      (fun lay ab => swap_keys (fk0.getD ab.1 0) (fk1.getD ab.2 0) lay) l

/-- Repeated application of `neighbor`, one draw per step. -/
def neighbor_iter (bt : KeyboardType) (st : Hand) (ds : List NeighborDraw)
    (l : ℕ → Key) : ℕ → Key :=
  ds.foldl (fun lay d => neighbor bt st d lay) l

/-! ### Rust character primitives

The parser and the constraint evaluator call `char::is_alphabetic`,
`char::to_lowercase`, `char::to_uppercase` and `char::is_whitespace` from
the Rust standard library (external to this repository).  They are
modelled exactly on the character universe this development touches: the
ASCII range plus the German sharp s pair 'ß'/'ẞ', whose Unicode case
mappings (`to_uppercase` of 'ß' is the two-character "SS",
`to_lowercase` of 'ẞ' is "ß") the Rust documentation itself showcases.
Other code points are treated as caseless non-alphabetic characters.
`is_whitespace` is the full Unicode White_Space set. -/

def rust_is_whitespace (c : Char) : Bool :=
  c.toNat ∈ [0x09, 0x0A, 0x0B, 0x0C, 0x0D, 0x20, 0x85, 0xA0, 0x1680,
    0x2028, 0x2029, 0x202F, 0x205F, 0x3000] ∨
  (0x2000 ≤ c.toNat ∧ c.toNat ≤ 0x200A)

def rust_is_alphabetic (c : Char) : Bool :=
  ('A' ≤ c ∧ c ≤ 'Z') ∨ ('a' ≤ c ∧ c ≤ 'z') ∨ c = 'ß' ∨ c = 'ẞ'

def rust_to_lowercase (c : Char) : List Char :=
  if 'A' ≤ c ∧ c ≤ 'Z' then [Char.ofNat (c.toNat + 32)]
  else if c = 'ẞ' then ['ß']
  else [c]

def rust_to_uppercase (c : Char) : List Char :=
  if 'a' ≤ c ∧ c ≤ 'z' then [Char.ofNat (c.toNat - 32)]
  else if c = 'ß' then ['S', 'S']
  else [c]

/-! ### The layout parser and printer (src/eval.rs lines 18-130) -/

/-- Split a character list at `'\n'`, keeping empty segments (the splitting
half of Rust's `str::lines`). -/
def split_nl : List Char → List (List Char)
  | [] => [[]]
  | c :: rest =>
    if c = '\n' then [] :: split_nl rest
    else match split_nl rest with
      | t :: ts => (c :: t) :: ts
      | [] => [[c]]

/-- `str::lines` drops a final empty segment and strips one trailing
`'\r'` from each line. -/
def strip_cr (l : List Char) : List Char :=
  if l.getLast? = some '\r' then l.dropLast else l

def rust_lines (s : List Char) : List (List Char) :=
  (if (split_nl s).getLast? = some [] then (split_nl s).dropLast
   else split_nl s).map strip_cr

/-- `str::split_whitespace`: maximal runs of non-whitespace characters, in
order.  `acc` holds the reversed current token. -/
def split_ws_aux : List Char → List Char → List (List Char)
  | [], acc => if acc.isEmpty then [] else [acc.reverse]
  | c :: rest, acc =>
    if rust_is_whitespace c then
      if acc.isEmpty then split_ws_aux rest []
      else acc.reverse :: split_ws_aux rest []
    else split_ws_aux rest (c :: acc)

def split_ws (l : List Char) : List (List Char) := split_ws_aux l []

/-- Parse one whitespace-separated key token (the inner loop of
`layout_from_str`, src/eval.rs lines 35-59).  A one-glyph token
auto-generates its case pair if the glyph is alphabetic and both case
conversions are single characters.  (On an empty token the source would
case-convert the `' '` array initializer and fail; `split_ws` never
produces empty tokens.) -/
def parse_key (token : List Char) : Except String Key :=
  match token with
  | [] => .error "Automatic case conversion failed"
  | [c] =>
    if ¬ rust_is_alphabetic c = true ∨ (rust_to_lowercase c).length ≠ 1 ∨
        (rust_to_uppercase c).length ≠ 1 then
      .error "Automatic case conversion failed"
    else
      .ok ((rust_to_lowercase c).headD c, (rust_to_uppercase c).headD c)
  | [c1, c2] => .ok (c1, c2)
  | _ => .error "Too many characters"

/-- The per-row token loop of `layout_from_str` (lines 25-65): the 11th
token errors out; fewer than 10 keys after the loop error out.  `k` counts
the keys already parsed. -/
def parse_keys : List (List Char) → ℕ → Except String (List Key)
  | [], k => if k < 10 then .error "Expected 10 keys per row" else .ok []
  | t :: ts, k =>
    if k ≥ 10 then .error "Too many keys on row"
    else do
      let key ← parse_key t
      let rest ← parse_keys ts (k + 1)
      pure (key :: rest)

/-- The duplicate-symbol check (lines 71-82): sort all 60 glyphs, fold over
adjacent pairs collecting duplicates.  `sort_unstable` is some sort of the
glyphs; the model uses insertion sort (stability cannot matter: equal
characters are identical). -/
def dup_symbols (layout : List Key) : List Char :=
  let symbols := (layout.flatMap fun k => [k.1, k.2]).insertionSort (· ≤ ·)
  (symbols.foldl
    (fun (st : List Char × Char) c => (if st.2 = c then c :: st.1 else st.1, c))
    ([], '\x00')).1

/-- `layout_from_str` (lines 18-84), on the character list of the input
string.  The source fills a fixed 30-key array and reports the first error
it encounters; the model returns the concatenated rows, which on every
`.ok` path hold exactly 30 keys.  (The model checks the row count after
parsing the rows and so can report a different error message than the
source on malformed input, but it accepts exactly the same inputs with the
same resulting layout.) -/
def layout_from_str (s : List Char) : Except String (List Key) := do
  let rows ← ((rust_lines s).take 3).mapM fun line =>
    parse_keys (split_ws line) 0
  if ((rust_lines s).take 3).length < 3 then .error "Expected 3 rows"
  else if ¬ (dup_symbols rows.flatten).isEmpty then
    .error "Duplicated symbols in layout"
  else .ok rows.flatten

/-- One key as `layout_to_str` writes it (lines 89-93): `"  a"` when the
shifted glyph lowercases to the unshifted one, `" ab"` otherwise. -/
def key_to_str (k : Key) : List Char :=
  match (rust_to_lowercase k.2).head? with
  | some l => if l = k.1 then [' ', ' ', k.1] else [' ', k.1, k.2]
  | none => [' ', k.1, k.2]

/-- `layout_to_str` (lines 86-102): three rows of ten keys each, every row
terminated by a newline. -/
def layout_to_str (layout : List Key) : List Char :=
  ((layout.take 10).flatMap key_to_str) ++
    ('\n' :: ((((layout.drop 10).take 10).flatMap key_to_str) ++
      ('\n' :: ((((layout.drop 20).take 10).flatMap key_to_str) ++ ['\n']))))

/-- The token `layout_to_str` emits for one key, without the separating
spaces. -/
def key_token (k : Key) : List Char :=
  match (rust_to_lowercase k.2).head? with
  | some l => if l = k.1 then [k.1] else [k.1, k.2]
  | none => [k.1, k.2]

/-- The key shapes for which re-parsing the printed form reproduces the
key: both glyphs are non-whitespace, and if the key prints in one-glyph
form (the shifted glyph lowercases to the unshifted one), the unshifted
glyph must be alphabetic and case-convert back to exactly this glyph
pair. -/
def good_key (k : Key) : Prop :=
  rust_is_whitespace k.1 = false ∧ rust_is_whitespace k.2 = false ∧
    ((rust_to_lowercase k.2).head? = some k.1 →
      rust_is_alphabetic k.1 = true ∧ rust_to_lowercase k.1 = [k.1] ∧
        rust_to_uppercase k.1 = [k.2])

instance : DecidablePred good_key := fun k => by
  unfold good_key
  infer_instance

/-! ### layout_to_filename (src/eval.rs lines 104-130) -/

/-- The punctuation substitution map (lines 112-126). -/
def filename_subst (c : Char) : Char :=
  if c = '/' then 'Z'
  else if c = '?' then 'S'
  else if c = '<' then 'L'
  else if c = '>' then 'G'
  else if c = ':' then 'I'
  else if c = ';' then 'J'
  else if c = '\\' then 'X'
  else if c = '|' then 'T'
  else if c = '.' then 'O'
  else if c = ',' then 'Q'
  else if c = '\'' then 'V'
  else if c = '"' then 'W'
  else c

/-- `layout_to_filename`: the 30 substituted primary glyphs with `'_'`
before indices 10 and 20, then the `.kbl` suffix. -/
def layout_to_filename (layout : List Key) : List Char :=
  (layout.enum.flatMap fun ik =>
    (if ik.1 = 10 ∨ ik.1 = 20 then ['_'] else []) ++
      [filename_subst ik.2.1]) ++
    ['.', 'k', 'b', 'l']

/-- The characters claim C8 allows in a filename: ASCII alphanumerics, the
row separator, the substitution map's outputs, and the `.kbl` suffix
characters. -/
def claimed_filename_char (c : Char) : Bool :=
  ('A' ≤ c ∧ c ≤ 'Z') ∨ ('a' ≤ c ∧ c ≤ 'z') ∨ ('0' ≤ c ∧ c ≤ '9') ∨
  c = '_' ∨
  c ∈ ['Z', 'S', 'L', 'G', 'I', 'J', 'X', 'T', 'O', 'Q', 'V', 'W'] ∨
  c ∈ ['.', 'k', 'b', 'l']

/-- ASCII alphanumeric characters. -/
def ascii_alphanumeric (c : Char) : Bool :=
  ('A' ≤ c ∧ c ≤ 'Z') ∨ ('a' ≤ c ∧ c ≤ 'z') ∨ ('0' ≤ c ∧ c ≤ '9')

/-- The domain of the substitution map. -/
def subst_domain : List Char :=
  ['/', '?', '<', '>', ':', ';', '\\', '|', '.', ',', '\'', '"']

/-! ### The constraint evaluator (src/eval.rs lines 1148-1322)

All constraint arithmetic is finite `f64` arithmetic, modelled over `ℚ` —
except `eval_forced_coded`, whose `-1.0 / total` divides by zero when the
forced-keys list is empty, producing `-inf`.  `FVal` makes the IEEE
special values explicit. -/

inductive FVal where
  | fin : ℚ → FVal
  | negInf
  | posInf
  | nan
deriving DecidableEq, Repr

/-- IEEE `f64` division of finite values: finite quotient for a nonzero
divisor, signed infinity (or NaN for `0/0`) for a zero divisor. -/
def fdiv (a b : ℚ) : FVal :=
  if b = 0 then
    if a < 0 then .negInf else if 0 < a then .posInf else .nan
  else .fin (a / b)

/-- Adding a finite `f64` to an `FVal`. -/
def FVal.addQ : ℚ → FVal → FVal
  | a, .fin b => .fin (a + b)
  | _, .negInf => .negInf
  | _, .posInf => .posInf
  | _, .nan => .nan

/-- `layout[i][0]`: the primary glyph at index `i`.  All source accesses
are within the fixed 30-key array; out-of-range indices (which would panic
in the source) default to `' '`. -/
def key_primary (layout : List Key) (i : ℕ) : Char :=
  (layout.getD i (' ', ' ')).1

/-- `eval_forced_coded` (lines 1257-1264): each violated (char, index)
constraint contributes `1/N`; zero violations yield `-1.0 / N` — which for
an empty list is the IEEE division `-1.0 / 0.0 = -inf`. -/
def eval_forced_coded (layout : List Key) (forced : List (Char × ℕ)) : FVal :=
  let mismatched : ℕ :=
    (forced.map fun ci => if key_primary layout ci.2 ≠ ci.1 then 1 else 0).sum
  if mismatched = 0 then fdiv (-1) (forced.length : ℚ)
  else fdiv (mismatched : ℚ) (forced.length : ℚ)

/-- `eval_row` (lines 1268-1275). -/
def eval_row (layout : List Key) (row : ℕ) (keys : Option (List Char)) : ℚ :=
  match keys with
  | some ks =>
    ((((layout.drop (row * 10)).take 10).countP
        fun k => ks.contains k.1 : ℕ) : ℚ) / (-10) + 1
  | none => 0

/-- `eval_zxcv` (lines 1230-1245): scan the left-hand bottom row for
z/x/c/v; a bonus point if all four appear in order.  (The source collects
into a 4-slot array; with more than four hits — impossible without
duplicated glyphs — it would panic.) -/
def eval_zxcv (layout : List Key) : ℚ :=
  let found := (((layout.drop 20).take 5).map fun k => k.1).filter
    fun c => ['z', 'x', 'c', 'v'].contains c
  let n := found.length + (if found = ['z', 'x', 'c', 'v'] then 1 else 0)
  ((5 : ℚ) - (n : ℚ)) / 5

/-- `eval_nonalpha` (lines 1250-1255). -/
def eval_nonalpha (layout : List Key) : ℚ :=
  (((if rust_is_alphabetic (key_primary layout 9) then 1 else 0) +
    ((layout.drop 27).take 3).countP (fun k => rust_is_alphabetic k.1) : ℕ) : ℚ)
    / 4

/-- `eval_homing` (lines 1281-1322).  The fold carries
(homing_finger, homing_only_wrong); a set `wrong` flag models the loop's
`break`. -/
def eval_homing (layout : List Key) (keys homing_only : Option (List Char)) :
    ℚ :=
  match keys with
  | none => 0
  | some ks =>
    let index : ℕ :=
      (if ks.contains (key_primary layout 13) then 1 else 0) +
        (if ks.contains (key_primary layout 16) then 1 else 0)
    let middle : ℕ :=
      (if ks.contains (key_primary layout 12) then 1 else 0) +
        (if ks.contains (key_primary layout 17) then 1 else 0)
    let hw : ℕ × Bool :=
      match homing_only with
      | none => (0, false)
      | some hos =>
        hos.foldl
          (fun (st : ℕ × Bool) key =>
            if st.2 then st
            else
              match ((layout.drop 10).take 10).findIdx?
                  (fun k => k.1 = key) with
              | none => st
              | some p =>
                if p = 3 ∨ p = 6 then
                  if st.1 = 0 then (1, false)
                  else if st.1 ≠ 1 then (st.1, true) else st
                else if p = 2 ∨ p = 7 then
                  if st.1 = 0 then (2, false)
                  else if st.1 ≠ 2 then (st.1, true) else st
                else (st.1, true))
          (0, false)
    ((2 - (match hw.1 with
      | 0 => max index middle
      | 1 => index
      | _ => middle) + (if hw.2 then 1 else 0) : ℕ) : ℚ) / 3

/-- The two-pointer walk over the char-sorted (index, glyph) arrays of
`layout_distance` (lines 1199-1224), accumulating the remaining distance
from the start value 120. -/
def dist_walk (bt : KeyboardType) (st : Hand) :
    List (ℕ × Char) → List (ℕ × Char) → ℕ → ℕ
  | [], _, d => d
  | _ :: _, [], d => d
  | a :: as', b :: bs', d =>
    if a.2 < b.2 then dist_walk bt st as' (b :: bs') d
    else if b.2 < a.2 then dist_walk bt st (a :: as') bs' d
    else
      dist_walk bt st as' bs'
        (d - (if a.1 = b.1 then 4
          else if keyFinger bt st a.1 = keyFinger bt st b.1 then 2
          else if keyHand bt st a.1 = keyHand bt st b.1 then 1
          else 0))
termination_by a b _ => a.length + b.length

/-- The indexed primary glyphs of a layout, sorted by glyph
(`sort_by_key(|x| x.1)`). -/
def layout_primaries_sorted (l : List Key) : List (ℕ × Char) :=
  ((l.map fun k => k.1).enum).insertionSort fun x y => x.2 ≤ y.2

/-- `layout_distance` (lines 1179-1226). -/
def layout_distance (bt : KeyboardType) (st : Hand) (a b : List Key) : ℚ :=
  ((dist_walk bt st (layout_primaries_sorted a) (layout_primaries_sorted b)
      120 : ℕ) : ℚ) / 120

/-- `ConstraintParams` (lines 374-395), with key sets as character lists
and the resolved forced-keys vector. -/
structure ConstraintParams where
  ref_layout : Option (List Key)
  ref_weight : ℚ
  ref_threshold : ℚ
  top_keys : Option (List Char)
  mid_keys : Option (List Char)
  bot_keys : Option (List Char)
  homing_keys : Option (List Char)
  homing_only_keys : Option (List Char)
  top_weight : ℚ
  mid_weight : ℚ
  bot_weight : ℚ
  homing_weight : ℚ
  zxcv : ℚ
  nonalpha : ℚ
  forced_keys_vec : List (Char × ℕ)

/-- `eval_constraints` (lines 1148-1173): the weighted sum of the
constraint penalties, plus the forced-keys contribution (which is the only
term that can be non-finite). -/
def eval_constraints (bt : KeyboardType) (st : Hand) (cp : ConstraintParams)
    (layout : List Key) : FVal :=
  let score : ℚ :=
    (match cp.ref_layout with
      | some rl =>
        if cp.ref_weight ≠ 0 then
          max (layout_distance bt st layout rl - cp.ref_threshold) 0 *
            (1 - cp.ref_threshold) * cp.ref_weight
        else 0
      | none => 0) +
    eval_row layout 0 cp.top_keys * cp.top_weight +
    eval_row layout 1 cp.mid_keys * cp.mid_weight +
    eval_row layout 2 cp.bot_keys * cp.bot_weight +
    eval_homing layout cp.homing_keys cp.homing_only_keys * cp.homing_weight +
    (if cp.zxcv ≠ 0 then cp.zxcv * eval_zxcv layout else 0) +
    (if cp.nonalpha ≠ 0 then cp.nonalpha * eval_nonalpha layout else 0)
  FVal.addQ score (eval_forced_coded layout cp.forced_keys_vec)

/-- Constraint parameters with every configured set empty: no reference
layout, no row key sets, no homing keys, zxcv and nonalpha weights zero,
and an empty forced-keys list.  The remaining weights are arbitrary. -/
def empty_constraints (rweight rthresh wtop wmid wbot whom : ℚ) :
    ConstraintParams :=
  { ref_layout := none, ref_weight := rweight, ref_threshold := rthresh,
    top_keys := none, mid_keys := none, bot_keys := none,
    homing_keys := none, homing_only_keys := none,
    top_weight := wtop, mid_weight := wmid, bot_weight := wbot,
    homing_weight := whom, zxcv := 0, nonalpha := 0,
    forced_keys_vec := [] }

/-! ### Concrete layouts used by witnesses and counterexamples -/

/-- A QWERTY layout, used as a round-trip witness. -/
def c4_witness_layout : List Key :=
  [('q', 'Q'), ('w', 'W'), ('e', 'E'), ('r', 'R'), ('t', 'T'),
   ('y', 'Y'), ('u', 'U'), ('i', 'I'), ('o', 'O'), ('p', 'P'),
   ('a', 'A'), ('s', 'S'), ('d', 'D'), ('f', 'F'), ('g', 'G'),
   ('h', 'H'), ('j', 'J'), ('k', 'K'), ('l', 'L'), (';', ':'),
   ('z', 'Z'), ('x', 'X'), ('c', 'C'), ('v', 'V'), ('b', 'B'),
   ('n', 'N'), ('m', 'M'), (',', '<'), ('.', '>'), ('/', '?')]

/-- A valid layout whose key 19 is the sharp-s pair `"ßẞ"`. -/
def c4_cx_layout : List Key :=
  [('q', 'Q'), ('w', 'W'), ('e', 'E'), ('r', 'R'), ('t', 'T'),
   ('y', 'Y'), ('u', 'U'), ('i', 'I'), ('o', 'O'), ('p', 'P'),
   ('a', 'A'), ('s', 'S'), ('d', 'D'), ('f', 'F'), ('g', 'G'),
   ('h', 'H'), ('j', 'J'), ('k', 'K'), ('l', 'L'), ('ß', 'ẞ'),
   ('z', 'Z'), ('x', 'X'), ('c', 'C'), ('v', 'V'), ('b', 'B'),
   ('n', 'N'), ('m', 'M'), (',', '<'), ('.', '>'), ('/', '?')]

/-- A layout text whose parse is `c4_cx_layout`. -/
def c4_cx_input : List Char :=
  "q w e r t y u i o p\na s d f g h j k l ßẞ\nz x c v b n m ,< .> /?".toList

/-- A valid layout whose key 29 is the pair `"=+"` — the primary glyph
`'='` is not in the substitution map's domain. -/
def c8_cx_layout : List Key :=
  [('q', 'Q'), ('w', 'W'), ('e', 'E'), ('r', 'R'), ('t', 'T'),
   ('y', 'Y'), ('u', 'U'), ('i', 'I'), ('o', 'O'), ('p', 'P'),
   ('a', 'A'), ('s', 'S'), ('d', 'D'), ('f', 'F'), ('g', 'G'),
   ('h', 'H'), ('j', 'J'), ('k', 'K'), ('l', 'L'), (';', ':'),
   ('z', 'Z'), ('x', 'X'), ('c', 'C'), ('v', 'V'), ('b', 'B'),
   ('n', 'N'), ('m', 'M'), (',', '<'), ('.', '>'), ('=', '+')]

/-- A layout text whose parse is `c8_cx_layout`. -/
def c8_cx_input : List Char :=
  "q w e r t y u i o p\na s d f g h j k l ;:\nz x c v b n m ,< .> =+".toList

/-- A QWERTY layout, used as a filename-safety witness. -/
def c8_witness_layout : List Key :=
  [('q', 'Q'), ('w', 'W'), ('e', 'E'), ('r', 'R'), ('t', 'T'),
   ('y', 'Y'), ('u', 'U'), ('i', 'I'), ('o', 'O'), ('p', 'P'),
   ('a', 'A'), ('s', 'S'), ('d', 'D'), ('f', 'F'), ('g', 'G'),
   ('h', 'H'), ('j', 'J'), ('k', 'K'), ('l', 'L'), (';', ':'),
   ('z', 'Z'), ('x', 'X'), ('c', 'C'), ('v', 'V'), ('b', 'B'),
   ('n', 'N'), ('m', 'M'), (',', '<'), ('.', '>'), ('/', '?')]

/-! ## Theorems -/

/-- **C10.** `mirror_key` is an involution on the 30 main key indices and
preserves the row: for every `k < 30`, `mirror_key (mirror_key k) = k` and
`mirror_key k / 10 = k / 10`. -/
theorem mirror_key_involution (k : ℕ) (hk : k < 30) :
    mirror_key (mirror_key k) = k ∧ mirror_key k / 10 = k / 10 := by
  revert hk; revert k; decide

/-- Witness for `mirror_key_involution` at `k = 13`. -/
theorem mirror_key_involution_witness :
    13 < 30 ∧ (mirror_key (mirror_key 13) = 13 ∧ mirror_key 13 / 10 = 13 / 10) :=
  ⟨by decide, mirror_key_involution 13 (by decide)⟩

/-- **C7.** `get_wt_score` computes exactly the piecewise contribution the
claim describes: with no target or `φ ≤ 0` the contribution is `w·s`;
otherwise, with `φ' = φ` for `w ≥ 0` and `φ' = 1/φ` for `w < 0`, it is
`(s/φ')·w` for `s ≤ t` and `(s·φ' + t·(1/φ' − φ'))·w` for `s > t`. -/
theorem get_wt_score_spec (s w φ : ℚ) (target : Option ℚ) :
    get_wt_score s w φ target = wt_score_spec s w φ target := by
  cases target with
  | none => rfl
  | some t =>
    simp only [get_wt_score, wt_score_spec]
    by_cases hφ : 0 < φ
    · rw [if_pos hφ, if_neg (not_le.mpr hφ)]
      by_cases hw : w < 0
      · simp only [if_pos hw, if_neg (not_le.mpr hw)]
      · simp only [if_neg hw, if_pos (not_lt.mp hw)]
    · rw [if_neg hφ, if_pos (not_lt.mp hφ)]

/-! #### The classifier tables (C5, C6) -/

/-- Every key below index 30 is on a real hand, for every board type and
thumb configuration. -/
theorem keyHand_ne_any (bt : KeyboardType) (st : Hand) :
    ∀ k, k < 30 → keyHand bt st k ≠ Hand.Any := by
  cases bt <;> cases st <;> decide

theorem lsb_by_distance_cases (d : ℕ) :
    lsb_by_distance d = BIGRAM_LSB1 ∨ lsb_by_distance d = BIGRAM_LSB2 ∨
      lsb_by_distance d = BIGRAM_LSB3 := by
  rcases d with _ | _ | _ | d
  · exact Or.inr (Or.inr rfl)
  · exact Or.inl rfl
  · exact Or.inr (Or.inl rfl)
  · exact Or.inr (Or.inr rfl)

/-- The same-hand classification arm only ever produces one of the eight
same-hand codes. -/
theorem bigram_class_cases (bt : KeyboardType) (st : Hand) (i j : ℕ) :
    bigram_class bt st i j = BIGRAM_SAMEKEY ∨
    bigram_class bt st i j = BIGRAM_SFB ∨
    bigram_class bt st i j = BIGRAM_LSB1 ∨
    bigram_class bt st i j = BIGRAM_LSB2 ∨
    bigram_class bt st i j = BIGRAM_LSB3 ∨
    bigram_class bt st i j = BIGRAM_SCISSOR ∨
    bigram_class bt st i j = BIGRAM_DROLL ∨
    bigram_class bt st i j = BIGRAM_UROLL := by
  unfold bigram_class
  split_ifs <;>
    first
    | decide
    | (rcases lsb_by_distance_cases
        ((((keyFinger bt st i).toNat : ℤ) -
          ((keyFinger bt st j).toNat : ℤ)).natAbs) with h | h | h <;>
        rw [h] <;> decide)

/-- **C5.** In every constructed model, for `i, j < 30`: if the two keys are
on the same hand, `bigram_types[i][j]` is one of SameKey, SFB, LSB1/2/3,
Scissor, DRoll, URoll — never Alternate — and if they are on different
hands it is Alternate. -/
theorem bigram_types_coverage (bt : KeyboardType) (st : Hand) (i j : ℕ)
    (hi : i < 30) (_hj : j < 30) :
    (keyHand bt st i = keyHand bt st j →
      bigram_types bt st i j ∈
        [BIGRAM_SAMEKEY, BIGRAM_SFB, BIGRAM_LSB1, BIGRAM_LSB2, BIGRAM_LSB3,
         BIGRAM_SCISSOR, BIGRAM_DROLL, BIGRAM_UROLL] ∧
      bigram_types bt st i j ≠ BIGRAM_ALTERNATE) ∧
    (keyHand bt st i ≠ keyHand bt st j →
      bigram_types bt st i j = BIGRAM_ALTERNATE) := by
  have ha := keyHand_ne_any bt st i hi
  constructor
  · intro heq
    have hb : bigram_types bt st i j = bigram_class bt st i j := by
      unfold bigram_types
      rw [if_neg]
      push_neg
      exact ⟨ha, heq⟩
    rw [hb]
    constructor
    · simp only [List.mem_cons, List.not_mem_nil, or_false]
      exact bigram_class_cases bt st i j
    · rcases bigram_class_cases bt st i j with
        h | h | h | h | h | h | h | h <;> rw [h] <;> decide
  · intro hne
    unfold bigram_types
    rw [if_pos (Or.inr hne)]

/-- Witness for `bigram_types_coverage`: Ortho board, keys 0 and 1. -/
theorem bigram_types_coverage_witness :
    (0 : ℕ) < 30 ∧ (1 : ℕ) < 30 ∧
    ((keyHand .Ortho .Any 0 = keyHand .Ortho .Any 1 →
      bigram_types .Ortho .Any 0 1 ∈
        [BIGRAM_SAMEKEY, BIGRAM_SFB, BIGRAM_LSB1, BIGRAM_LSB2, BIGRAM_LSB3,
         BIGRAM_SCISSOR, BIGRAM_DROLL, BIGRAM_UROLL] ∧
      bigram_types .Ortho .Any 0 1 ≠ BIGRAM_ALTERNATE) ∧
    (keyHand .Ortho .Any 0 ≠ keyHand .Ortho .Any 1 →
      bigram_types .Ortho .Any 0 1 = BIGRAM_ALTERNATE)) :=
  ⟨by decide, by decide,
   bigram_types_coverage .Ortho .Any 0 1 (by decide) (by decide)⟩

/-- **C6.** For any triple `(i, j, k)` where `i` and `k` are on the same
real hand and `j` is on a different hand, the trigram table entry is
exactly the `d*` variant of `bigram_types[i][k]`. -/
theorem trigram_types_disjointed (bt : KeyboardType) (st : Hand) (i j k : ℕ)
    (_hi : i < 31) (_hj : j < 31) (_hk : k < 31)
    (hik : keyHand bt st i = keyHand bt st k)
    (hAny : keyHand bt st i ≠ Hand.Any)
    (hij : keyHand bt st j ≠ keyHand bt st i) :
    trigram_types bt st i j k = trigram_d_variant (bigram_types bt st i k) := by
  have hb : bigram_types bt st i k = bigram_class bt st i k := by
    unfold bigram_types
    rw [if_neg]
    push_neg
    exact ⟨hAny, hik⟩
  have hmem := bigram_class_cases bt st i k
  rw [← hb] at hmem
  unfold trigram_types
  rw [if_neg (by push_neg; exact ⟨hAny, hik ▸ hAny⟩),
      if_pos ⟨hik, fun h => hij h.symm⟩]
  rcases hmem with h | h | h | h | h | h | h | h <;> rw [h] <;> decide

/-- Witness for `trigram_types_disjointed`: Ortho board, keys 0 and 1 on the
left hand with key 5 (right hand) in between. -/
theorem trigram_types_disjointed_witness :
    (0 : ℕ) < 31 ∧ (5 : ℕ) < 31 ∧ (1 : ℕ) < 31 ∧
    keyHand .Ortho .Any 0 = keyHand .Ortho .Any 1 ∧
    keyHand .Ortho .Any 0 ≠ Hand.Any ∧
    keyHand .Ortho .Any 5 ≠ keyHand .Ortho .Any 0 ∧
    trigram_types .Ortho .Any 0 5 1 =
      trigram_d_variant (bigram_types .Ortho .Any 0 1) :=
  ⟨by decide, by decide, by decide, by decide, by decide, by decide,
   trigram_types_disjointed .Ortho .Any 0 5 1 (by decide) (by decide)
     (by decide) (by decide) (by decide) (by decide)⟩

/-! #### The bigram walk (C1) -/

theorem walk_bigrams_of_gt (thr acc : ℕ) (l : List ℕ) (h : thr < acc) :
    walk_bigrams thr acc l = [] := by
  cases l with
  | nil => rfl
  | cons c cs => simp [walk_bigrams, h]

theorem walk_bigrams_shift (l : List ℕ) :
    ∀ thr acc, acc ≤ thr →
      walk_bigrams thr acc l = walk_bigrams (thr - acc) 0 l := by
  induction l with
  | nil => intro thr acc _; rfl
  | cons c cs ih =>
    intro thr acc hacc
    rw [walk_bigrams, walk_bigrams]
    rw [if_neg (by omega), if_neg (by omega)]
    by_cases h : acc + c ≤ thr
    · rw [ih thr (acc + c) h, ih (thr - acc) (0 + c) (by omega)]
      congr 2
      omega
    · rw [walk_bigrams_of_gt _ _ _ (by omega), walk_bigrams_of_gt _ _ _ (by omega)]

theorem spec_walk_nil (thr : ℕ) : spec_walk thr [] = [] := by
  simp [spec_walk]

theorem spec_walk_cons (thr c : ℕ) (cs : List ℕ) :
    spec_walk thr (c :: cs) =
      if thr < c then [c] else c :: spec_walk (thr - c) cs := by
  unfold spec_walk
  rw [List.length_cons, List.range_succ_eq_map,
      List.find?_cons_of_neg _ (by simp), List.find?_map]
  by_cases h : thr < c
  · have hfind :
        List.find? ((fun n => decide (thr < ((c :: cs).take n).sum)) ∘ Nat.succ)
          (List.range (cs.length + 1)) = some 0 := by
      rw [List.range_succ_eq_map, List.find?_cons_of_pos]
      simpa using h
    rw [hfind, if_pos h]
    rfl
  · have hp : ((fun n => decide (thr < ((c :: cs).take n).sum)) ∘ Nat.succ) =
        fun n => decide (thr - c < (cs.take n).sum) := by
      funext n
      simp only [Function.comp_apply, List.take_succ_cons, List.sum_cons,
        decide_eq_decide]
      omega
    rw [hp, if_neg h]
    cases hfind : List.find? (fun n => decide (thr - c < (cs.take n).sum))
        (List.range (cs.length + 1)) with
    | none => simp [hfind]
    | some n => simp [hfind]

theorem walk_bigrams_eq_spec_walk (counts : List ℕ) :
    ∀ thr, walk_bigrams thr 0 counts = spec_walk thr counts := by
  induction counts with
  | nil => intro thr; rw [spec_walk_nil]; rfl
  | cons c cs ih =>
    intro thr
    rw [walk_bigrams, if_neg (by omega), spec_walk_cons]
    by_cases h : thr < c
    · rw [if_pos h, walk_bigrams_of_gt _ _ _ (by omega)]
    · rw [if_neg h, walk_bigrams_shift cs thr (0 + c) (by omega)]
      rw [show thr - (0 + c) = thr - c by omega, ih]

/-- **C1, amended.** `eval_layout` remaps its precision argument before
truncating the bigram walk: the walked bigram counts are the shortest
prefix of the (descending) count list whose cumulative sum exceeds
`⌊(0.9 + 0.1·p) · total_bigrams⌋` — not `p · total_bigrams` as the claim
states.  In particular at `p = 0.5` about 95% of the bigram mass is walked,
not half. -/
theorem eval_layout_bigram_walk_eq_spec (p : ℚ) (counts : List ℕ) (tb : ℕ) :
    eval_layout_bigram_walk p counts tb =
      spec_walk (calc_percentile tb (eval_layout_precision p)) counts :=
  walk_bigrams_eq_spec_walk counts _

/-- **C1, counterexample.** On a corpus of 20 bigrams of count 1 each, at
precision `p = 1/2` the claimed walk (stop as soon as the cumulative count
exceeds `p · total_bigrams = 10`, i.e. walk 11 bigrams) differs from what
`eval_layout` computes (it walks all 20, since its threshold is
`⌊20 · 0.95⌋ = 19`). -/
theorem eval_layout_bigram_walk_counterexample :
    eval_layout_bigram_walk (1/2) (List.replicate 20 1) 20 ≠
      spec_walk (calc_percentile 20 (1/2)) (List.replicate 20 1) := by
  have h1 : calc_percentile 20 (eval_layout_precision (1/2)) = 19 := by
    unfold calc_percentile eval_layout_precision
    norm_num
    decide
  have h2 : calc_percentile 20 (1/2) = 10 := by
    unfold calc_percentile
    norm_num
    decide
  unfold eval_layout_bigram_walk
  rw [h1, h2]
  decide

/-! #### The travel correction (C3) -/

/-- The accumulated bigram correction is a sum. -/
theorem foldl_bigram_travel (bs : List TravelEntry) :
    ∀ t : ℚ, bs.foldl bigram_travel_step t =
      t + (bs.map (fun e => (e.d_rel * 4 - e.d_abs) * (e.count : ℚ))).sum := by
  induction bs with
  | nil => intro t; simp
  | cons e es ih =>
    intro t
    rw [List.foldl_cons, ih, List.map_cons, List.sum_cons, bigram_travel_step]
    ring

/-- The accumulated trigram correction is a sum. -/
theorem foldl_trigram_travel (ts : List TravelEntry) :
    ∀ t : ℚ, ts.foldl trigram_travel_step t =
      t + (ts.map (fun e => (e.d_rel * 2 - e.d_abs) * (e.count : ℚ))).sum := by
  induction ts with
  | nil => intro t; simp
  | cons e es ih =>
    intro t
    rw [List.foldl_cons, ih, List.map_cons, List.sum_cons, trigram_travel_step]
    ring

/-- **C3, amended.** The final finger travel is not a convex combination of
the uncorrected and corrected values: each of the two
`travel += (travel − orig)·(1 − p)` updates extrapolates beyond the
corrected value, and the final travel equals
`uncorrected + (corrected − uncorrected) · (2 − p)`. -/
theorem calc_ngrams_finger_travel_eq (o : ℚ) (bs ts : List TravelEntry)
    (p : ℚ) :
    calc_ngrams_finger_travel o bs ts p =
      o + (corrected_finger_travel o bs ts - o) * (2 - p) := by
  simp only [calc_ngrams_finger_travel, corrected_finger_travel, travel_lerp,
    foldl_bigram_travel, foldl_trigram_travel]
  ring

/-- **C3, counterexample.** At precision `p = 9/10` (inside `[0,1]`, and in
fact inside the `[0.9, 1.0]` range `eval_layout` passes), a finger with
uncorrected travel `0` and a single SFB correction entry summing to `1` gets
final travel `11/10`, which does not lie weakly between the uncorrected
travel `0` and the corrected travel `1`. -/
theorem calc_ngrams_finger_travel_counterexample :
    (0 : ℚ) ≤ 9/10 ∧ (9/10 : ℚ) ≤ 1 ∧
    ¬ (min (0 : ℚ) (corrected_finger_travel 0 [⟨1/4, 0, 1⟩] []) ≤
          calc_ngrams_finger_travel 0 [⟨1/4, 0, 1⟩] [] (9/10) ∧
        calc_ngrams_finger_travel 0 [⟨1/4, 0, 1⟩] [] (9/10) ≤
          max (0 : ℚ) (corrected_finger_travel 0 [⟨1/4, 0, 1⟩] [])) := by
  have hc : corrected_finger_travel 0 [⟨1/4, 0, 1⟩] [] = 1 := by
    norm_num [corrected_finger_travel, bigram_travel_step]
  have hf : calc_ngrams_finger_travel 0 [⟨1/4, 0, 1⟩] [] (9/10) = 11/10 := by
    norm_num [calc_ngrams_finger_travel, travel_lerp, bigram_travel_step,
      trigram_travel_step]
  rw [hc, hf]
  norm_num

/-! #### The constraint evaluator on empty constraint sets (C2) -/

/-- On an empty forced-keys list, `mismatched == 0` and the bonus formula
divides by zero: `-1.0 / 0.0 = -inf`. -/
theorem eval_forced_coded_nil (layout : List Key) :
    eval_forced_coded layout [] = FVal.negInf := by
  unfold eval_forced_coded fdiv
  norm_num

/-- **C2 (the code side of the bug).**  With every configured constraint
set empty — no reference layout, no row key sets, no homing keys, zxcv and
nonalpha weights zero, an empty forced-keys list — `eval_constraints`
returns `-inf` for every layout, not `0`: the `eval_forced_coded` bonus
`-1.0 / N` is evaluated with `N = 0`. -/
theorem eval_constraints_empty_sets (bt : KeyboardType) (st : Hand)
    (rweight rthresh wtop wmid wbot whom : ℚ) (layout : List Key) :
    eval_constraints bt st
        (empty_constraints rweight rthresh wtop wmid wbot whom) layout =
      FVal.negInf ∧
    eval_constraints bt st
        (empty_constraints rweight rthresh wtop wmid wbot whom) layout ≠
      FVal.fin 0 := by
  have h : eval_constraints bt st
      (empty_constraints rweight rthresh wtop wmid wbot whom) layout =
      FVal.negInf := by
    unfold eval_constraints empty_constraints
    rw [eval_forced_coded_nil]
    rfl
  exact ⟨h, by rw [h]; exact fun hh => FVal.noConfusion hh⟩

/-! #### The layout parser round trip (C4) -/

theorem split_nl_ne_nil (l : List Char) : split_nl l ≠ [] := by
  cases l with
  | nil => simp [split_nl]
  | cons c rest =>
    unfold split_nl
    split_ifs
    · simp
    · cases h : split_nl rest <;> simp

theorem split_nl_append (a b : List Char) (h : '\n' ∉ a) :
    split_nl (a ++ '\n' :: b) = a :: split_nl b := by
  induction a with
  | nil => simp [split_nl]
  | cons c a ih =>
    have hc : ¬ c = '\n' := fun hh => h (hh ▸ List.mem_cons_self c a)
    have hrec := ih fun hx => h (List.mem_cons_of_mem c hx)
    rw [List.cons_append]
    simp [split_nl, hc, hrec]

theorem strip_cr_eq (l : List Char) (h : '\r' ∉ l) : strip_cr l = l := by
  unfold strip_cr
  rw [if_neg]
  intro hh
  exact h (List.mem_of_mem_getLast? hh)

theorem rust_lines_three (r0 r1 r2 : List Char)
    (h0 : '\n' ∉ r0) (h1 : '\n' ∉ r1) (h2 : '\n' ∉ r2)
    (hc0 : '\r' ∉ r0) (hc1 : '\r' ∉ r1) (hc2 : '\r' ∉ r2) :
    rust_lines (r0 ++ '\n' :: (r1 ++ '\n' :: (r2 ++ ['\n']))) =
      [r0, r1, r2] := by
  have e : split_nl (r0 ++ '\n' :: (r1 ++ '\n' :: (r2 ++ ['\n']))) =
      [r0, r1, r2, []] := by
    rw [split_nl_append _ _ h0, split_nl_append _ _ h1,
        show r2 ++ ['\n'] = r2 ++ '\n' :: [] from rfl,
        split_nl_append _ _ h2]
    rfl
  unfold rust_lines
  rw [e]
  have hlast : ([r0, r1, r2, ([] : List Char)]).getLast? = some [] := rfl
  rw [if_pos hlast]
  show [strip_cr r0, strip_cr r1, strip_cr r2] = [r0, r1, r2]
  rw [strip_cr_eq r0 hc0, strip_cr_eq r1 hc1, strip_cr_eq r2 hc2]

theorem split_ws_aux_cons_nonws (c : Char) (rest acc : List Char)
    (hc : rust_is_whitespace c = false) :
    split_ws_aux (c :: rest) acc = split_ws_aux rest (c :: acc) := by
  simp [split_ws_aux, hc]

theorem split_ws_aux_append_nonws (t : List Char)
    (h : ∀ c ∈ t, rust_is_whitespace c = false) :
    ∀ (rest acc : List Char),
      split_ws_aux (t ++ rest) acc = split_ws_aux rest (t.reverse ++ acc) := by
  induction t with
  | nil => intro rest acc; simp
  | cons c t ih =>
    intro rest acc
    calc split_ws_aux ((c :: t) ++ rest) acc
        = split_ws_aux (t ++ rest) (c :: acc) := by
          rw [List.cons_append,
            split_ws_aux_cons_nonws c _ _ (h c (List.mem_cons_self c t))]
      _ = split_ws_aux rest (t.reverse ++ (c :: acc)) :=
          ih (fun x hx => h x (List.mem_cons_of_mem c hx)) rest (c :: acc)
      _ = split_ws_aux rest ((c :: t).reverse ++ acc) := by
          rw [List.reverse_cons, List.append_assoc]
          rfl

theorem split_ws_aux_nil_acc (acc : List Char) (h : acc ≠ []) :
    split_ws_aux [] acc = [acc.reverse] := by
  cases acc with
  | nil => exact absurd rfl h
  | cons a as => rfl

theorem split_ws_aux_ws_cons (c : Char) (rest acc : List Char)
    (hc : rust_is_whitespace c = true) (h : acc ≠ []) :
    split_ws_aux (c :: rest) acc = acc.reverse :: split_ws_aux rest [] := by
  cases acc with
  | nil => exact absurd rfl h
  | cons a as => simp [split_ws_aux, hc]

theorem split_ws_aux_ws_skip (c : Char) (rest : List Char)
    (hc : rust_is_whitespace c = true) :
    split_ws_aux (c :: rest) [] = split_ws_aux rest [] := by
  simp [split_ws_aux, hc]

/-- Each key prints as one or two separating spaces followed by its
token. -/
theorem key_to_str_shape (k : Key) :
    (key_to_str k = [' ', ' '] ++ key_token k ∧ key_token k = [k.1]) ∨
    (key_to_str k = [' '] ++ key_token k ∧ key_token k = [k.1, k.2]) := by
  unfold key_to_str key_token
  cases h : (rust_to_lowercase k.2).head? with
  | none => right; simp
  | some l =>
    by_cases hl : l = k.1
    · left; simp [hl]
    · right; simp [hl]

theorem key_token_nonws (k : Key) (hk : good_key k) :
    ∀ c ∈ key_token k, rust_is_whitespace c = false := by
  obtain ⟨h1, h2, _⟩ := hk
  rcases key_to_str_shape k with ⟨_, ht⟩ | ⟨_, ht⟩ <;> rw [ht] <;>
    intro c hc <;> simp only [List.mem_cons, List.not_mem_nil, or_false] at hc
  · rw [hc]; exact h1
  · rcases hc with hc | hc <;> rw [hc]
    · exact h1
    · exact h2

/-- Splitting a printed row of keys on whitespace recovers the tokens. -/
theorem split_ws_aux_flatMap (ks : List Key) (hg : ∀ k ∈ ks, good_key k) :
    (∀ acc, acc ≠ [] → split_ws_aux (ks.flatMap key_to_str) acc =
      acc.reverse :: ks.map key_token) ∧
    split_ws_aux (ks.flatMap key_to_str) [] = ks.map key_token := by
  induction ks with
  | nil =>
    refine ⟨fun acc h => ?_, rfl⟩
    rw [List.flatMap_nil, split_ws_aux_nil_acc acc h]
    rfl
  | cons k ks ih =>
    obtain ⟨ihs, ihz⟩ := ih fun x hx => hg x (List.mem_cons_of_mem k hx)
    have hk := hg k (List.mem_cons_self k ks)
    have htok := key_token_nonws k hk
    have htne : (key_token k).reverse ≠ [] := by
      rcases key_to_str_shape k with ⟨_, ht⟩ | ⟨_, ht⟩ <;> rw [ht] <;> simp
    have hinner : split_ws_aux (key_token k ++ ks.flatMap key_to_str) [] =
        key_token k :: ks.map key_token := by
      rw [split_ws_aux_append_nonws (key_token k) htok _ [], List.append_nil]
      by_cases hR : ks.flatMap key_to_str = []
      · rw [hR, split_ws_aux_nil_acc _ htne, List.reverse_reverse]
        have : ks.map key_token = [] := by
          cases ks with
          | nil => rfl
          | cons k' ks' =>
            exfalso
            rcases key_to_str_shape k' with ⟨hs, _⟩ | ⟨hs, _⟩ <;>
              simp [List.flatMap_cons, hs] at hR
        rw [this]
      · rw [ihs _ htne, List.reverse_reverse]
    constructor
    · intro acc hacc
      rcases key_to_str_shape k with ⟨hs, _⟩ | ⟨hs, _⟩ <;>
        rw [List.flatMap_cons, hs]
      · rw [show ([' ', ' '] ++ key_token k) ++ ks.flatMap key_to_str =
            ' ' :: (' ' :: (key_token k ++ ks.flatMap key_to_str)) by simp,
          split_ws_aux_ws_cons _ _ _ (by decide) hacc,
          split_ws_aux_ws_skip _ _ (by decide), hinner, List.map_cons]
      · rw [show ([' '] ++ key_token k) ++ ks.flatMap key_to_str =
            ' ' :: (key_token k ++ ks.flatMap key_to_str) by simp,
          split_ws_aux_ws_cons _ _ _ (by decide) hacc, hinner, List.map_cons]
    · rcases key_to_str_shape k with ⟨hs, _⟩ | ⟨hs, _⟩ <;>
        rw [List.flatMap_cons, hs]
      · rw [show ([' ', ' '] ++ key_token k) ++ ks.flatMap key_to_str =
            ' ' :: (' ' :: (key_token k ++ ks.flatMap key_to_str)) by simp,
          split_ws_aux_ws_skip _ _ (by decide),
          split_ws_aux_ws_skip _ _ (by decide), hinner, List.map_cons]
      · rw [show ([' '] ++ key_token k) ++ ks.flatMap key_to_str =
            ' ' :: (key_token k ++ ks.flatMap key_to_str) by simp,
          split_ws_aux_ws_skip _ _ (by decide), hinner, List.map_cons]

theorem split_ws_flatMap (ks : List Key) (hg : ∀ k ∈ ks, good_key k) :
    split_ws (ks.flatMap key_to_str) = ks.map key_token :=
  (split_ws_aux_flatMap ks hg).2

/-- Re-parsing a printed token recovers the key. -/
theorem parse_key_key_token (k : Key) (hk : good_key k) :
    parse_key (key_token k) = .ok k := by
  obtain ⟨_, _, hcase⟩ := hk
  rcases hshape : (rust_to_lowercase k.2).head? with _ | l
  · have ht : key_token k = [k.1, k.2] := by
      simp only [key_token, hshape]
    rw [ht]
    rfl
  · by_cases hl : l = k.1
    · have ht : key_token k = [k.1] := by
        simp only [key_token, hshape]
        rw [if_pos hl]
      obtain ⟨ha, hlow, hup⟩ := hcase (by rw [hshape, hl])
      rw [ht]
      show (if ¬ rust_is_alphabetic k.1 = true ∨
          (rust_to_lowercase k.1).length ≠ 1 ∨
          (rust_to_uppercase k.1).length ≠ 1 then
          (Except.error "Automatic case conversion failed" : Except String Key)
        else
          Except.ok ((rust_to_lowercase k.1).headD k.1,
            (rust_to_uppercase k.1).headD k.1)) = Except.ok k
      rw [if_neg]
      · rw [hlow, hup]
        rfl
      · push_neg
        exact ⟨ha, by rw [hlow]; rfl, by rw [hup]; rfl⟩
    · have ht : key_token k = [k.1, k.2] := by
        simp only [key_token, hshape]
        rw [if_neg hl]
      rw [ht]
      rfl

/-- Re-parsing the ten printed tokens of a full row recovers the keys. -/
theorem parse_keys_map (ks : List Key) (hg : ∀ k ∈ ks, good_key k) :
    ∀ n, ks.length + n = 10 → parse_keys (ks.map key_token) n = .ok ks := by
  induction ks with
  | nil =>
    intro n hn
    have h10 : n = 10 := by simpa using hn
    subst h10
    rfl
  | cons k ks ih =>
    intro n hn
    rw [List.map_cons]
    show (if n ≥ 10 then
        (Except.error "Too many keys on row" : Except String (List Key))
      else do
        let key ← parse_key (key_token k)
        let rest ← parse_keys (List.map key_token ks) (n + 1)
        pure (key :: rest)) = Except.ok (k :: ks)
    rw [if_neg (by simp only [List.length_cons] at hn; omega),
        parse_key_key_token k (hg k (List.mem_cons_self k ks))]
    show (do
        let rest ← parse_keys (List.map key_token ks) (n + 1)
        pure ((k : Key) :: rest)) = Except.ok (k :: ks)
    rw [ih (fun x hx => hg x (List.mem_cons_of_mem k hx)) (n + 1)
        (by simp only [List.length_cons] at hn; omega)]
    rfl

/-- Every character of a printed row is a separating space or a key
glyph. -/
theorem flatMap_key_to_str_chars (ks : List Key) (hg : ∀ k ∈ ks, good_key k)
    (c : Char) (hc : c ∈ ks.flatMap key_to_str) :
    c = ' ' ∨ rust_is_whitespace c = false := by
  rw [List.mem_flatMap] at hc
  obtain ⟨k, hk, hck⟩ := hc
  obtain ⟨h1, h2, _⟩ := hg k hk
  rcases key_to_str_shape k with ⟨hs, ht⟩ | ⟨hs, ht⟩ <;> rw [hs, ht] at hck <;>
    rw [List.mem_append] at hck
  · rcases hck with hck | hck
    · left
      rcases (by simpa using hck : c = ' ' ∨ c = ' ') with h | h <;> exact h
    · right
      have h : c = k.1 := by simpa using hck
      exact h ▸ h1
  · rcases hck with hck | hck
    · left
      simpa using hck
    · right
      rcases (by simpa using hck : c = k.1 ∨ c = k.2) with h | h
      · exact h ▸ h1
      · exact h ▸ h2

theorem newline_not_mem_row (ks : List Key) (hg : ∀ k ∈ ks, good_key k) :
    '\n' ∉ ks.flatMap key_to_str := by
  intro h
  rcases flatMap_key_to_str_chars ks hg '\n' h with h' | h'
  · exact absurd h' (by decide)
  · exact absurd h' (by decide)

theorem creturn_not_mem_row (ks : List Key) (hg : ∀ k ∈ ks, good_key k) :
    '\r' ∉ ks.flatMap key_to_str := by
  intro h
  rcases flatMap_key_to_str_chars ks hg '\r' h with h' | h'
  · exact absurd h' (by decide)
  · exact absurd h' (by decide)

/-- `mapM` over a three-element list of successful parses. -/
theorem mapM_three {f : List Char → Except String (List Key)}
    {a b c : List Char} {x y z : List Key}
    (ha : f a = .ok x) (hb : f b = .ok y) (hc : f c = .ok z) :
    ([a, b, c].mapM f) = .ok [x, y, z] := by
  show (do
    let xv ← f a
    let yv ← f b
    let zv ← f c
    pure [xv, yv, zv] : Except String (List (List Key))) = .ok [x, y, z]
  rw [ha]
  show (do
    let yv ← f b
    let zv ← f c
    pure [x, yv, zv] : Except String (List (List Key))) = .ok [x, y, z]
  rw [hb]
  show (do
    let zv ← f c
    pure [x, y, zv] : Except String (List (List Key))) = .ok [x, y, z]
  rw [hc]
  rfl

/-- **C4, amended.**  Printing and re-parsing reproduce a layout for every
30-key layout with pairwise-distinct non-whitespace glyphs whose keys
case-convert consistently (`good_key`): in particular for every layout of
ASCII glyphs.  (The restriction to `good_key` is forced by the
counterexample below: a valid key such as `"ßẞ"` prints in one-glyph form
`"ß"`, whose re-parse fails because `to_uppercase` of 'ß' is the
two-character "SS".) -/
theorem layout_round_trip (L : List Key) (hlen : L.length = 30)
    (hkeys : ∀ k ∈ L, good_key k) (hdup : dup_symbols L = []) :
    layout_from_str (layout_to_str L) = .ok L := by
  have hg0 : ∀ k ∈ L.take 10, good_key k := fun k hk =>
    hkeys k (List.mem_of_mem_take hk)
  have hg1 : ∀ k ∈ (L.drop 10).take 10, good_key k := fun k hk =>
    hkeys k (List.mem_of_mem_drop (List.mem_of_mem_take hk))
  have hg2 : ∀ k ∈ (L.drop 20).take 10, good_key k := fun k hk =>
    hkeys k (List.mem_of_mem_drop (List.mem_of_mem_take hk))
  have hlines : rust_lines (layout_to_str L) =
      [(L.take 10).flatMap key_to_str,
       ((L.drop 10).take 10).flatMap key_to_str,
       ((L.drop 20).take 10).flatMap key_to_str] := by
    unfold layout_to_str
    exact rust_lines_three _ _ _
      (newline_not_mem_row _ hg0) (newline_not_mem_row _ hg1)
      (newline_not_mem_row _ hg2)
      (creturn_not_mem_row _ hg0) (creturn_not_mem_row _ hg1)
      (creturn_not_mem_row _ hg2)
  have hl0 : (L.take 10).length = 10 := by
    rw [List.length_take, hlen]
    omega
  have hl1 : ((L.drop 10).take 10).length = 10 := by
    rw [List.length_take, List.length_drop, hlen]
    omega
  have hl2 : ((L.drop 20).take 10).length = 10 := by
    rw [List.length_take, List.length_drop, hlen]
    omega
  have hp0 : parse_keys (split_ws ((L.take 10).flatMap key_to_str)) 0 =
      .ok (L.take 10) := by
    rw [split_ws_flatMap _ hg0, parse_keys_map _ hg0 0 (by rw [hl0])]
  have hp1 : parse_keys (split_ws (((L.drop 10).take 10).flatMap key_to_str))
      0 = .ok ((L.drop 10).take 10) := by
    rw [split_ws_flatMap _ hg1, parse_keys_map _ hg1 0 (by rw [hl1])]
  have hp2 : parse_keys (split_ws (((L.drop 20).take 10).flatMap key_to_str))
      0 = .ok ((L.drop 20).take 10) := by
    rw [split_ws_flatMap _ hg2, parse_keys_map _ hg2 0 (by rw [hl2])]
  have hflat : ([L.take 10, (L.drop 10).take 10, (L.drop 20).take 10] :
      List (List Key)).flatten = L := by
    show L.take 10 ++ ((L.drop 10).take 10 ++ ((L.drop 20).take 10 ++ [])) = L
    rw [List.append_nil,
        @List.take_of_length_le _ 10 (L.drop 20)
          (by rw [List.length_drop, hlen]),
        show (20 : ℕ) = 10 + 10 from rfl, ← List.drop_drop,
        List.take_append_drop, List.take_append_drop]
  have hmap : ((rust_lines (layout_to_str L)).take 3).mapM
      (fun line => parse_keys (split_ws line) 0) =
      .ok [L.take 10, (L.drop 10).take 10, (L.drop 20).take 10] := by
    rw [hlines]
    exact mapM_three hp0 hp1 hp2
  unfold layout_from_str
  rw [hmap]
  show (if ((rust_lines (layout_to_str L)).take 3).length < 3 then
      (Except.error "Expected 3 rows" : Except String (List Key))
    else if ¬ (dup_symbols ([L.take 10, (L.drop 10).take 10,
        (L.drop 20).take 10] : List (List Key)).flatten).isEmpty then
      .error "Duplicated symbols in layout"
    else .ok ([L.take 10, (L.drop 10).take 10,
        (L.drop 20).take 10] : List (List Key)).flatten) = .ok L
  rw [hflat, hlines, hdup,
      if_neg (show ¬ (([(L.take 10).flatMap key_to_str,
        ((L.drop 10).take 10).flatMap key_to_str,
        ((L.drop 20).take 10).flatMap key_to_str].take 3).length < 3) by
          simp)]
  rfl

/-- Witness for `layout_round_trip`: a QWERTY layout round-trips. -/
theorem layout_round_trip_witness :
    c4_witness_layout.length = 30 ∧
    (∀ k ∈ c4_witness_layout, good_key k) ∧
    dup_symbols c4_witness_layout = [] ∧
    layout_from_str (layout_to_str c4_witness_layout) =
      .ok c4_witness_layout :=
  ⟨by decide, by decide, by decide,
   layout_round_trip c4_witness_layout (by decide) (by decide) (by decide)⟩

/-- **C4, counterexample.**  The claim fails as stated: `c4_cx_layout` is
valid (the parser accepts `c4_cx_input` and returns it), but printing and
re-parsing it does not return it — the key `"ßẞ"` prints as the one-glyph
form `"ß"`, and re-parsing that fails because `to_uppercase` of 'ß' is the
two-character "SS". -/
theorem layout_round_trip_counterexample :
    layout_from_str c4_cx_input = .ok c4_cx_layout ∧
    layout_from_str (layout_to_str c4_cx_layout) ≠ .ok c4_cx_layout := by
  constructor
  · rfl
  · have h : layout_from_str (layout_to_str c4_cx_layout) =
        .error "Automatic case conversion failed" := rfl
    rw [h]
    intro hh
    exact Except.noConfusion hh

/-! #### layout_to_filename (C8) -/

theorem filename_subst_of_alnum (c : Char)
    (h : ascii_alphanumeric c = true) : filename_subst c = c := by
  have ne : ∀ d : Char, ascii_alphanumeric d = false → ¬ c = d := by
    intro d hd hcd
    rw [hcd, hd] at h
    exact Bool.noConfusion h
  unfold filename_subst
  rw [if_neg (ne '/' (by decide)), if_neg (ne '?' (by decide)),
      if_neg (ne '<' (by decide)), if_neg (ne '>' (by decide)),
      if_neg (ne ':' (by decide)), if_neg (ne ';' (by decide)),
      if_neg (ne '\\' (by decide)), if_neg (ne '|' (by decide)),
      if_neg (ne '.' (by decide)), if_neg (ne ',' (by decide)),
      if_neg (ne '\'' (by decide)), if_neg (ne '"' (by decide))]

theorem claimed_filename_char_of_alnum (c : Char)
    (h : ascii_alphanumeric c = true) : claimed_filename_char c = true := by
  unfold ascii_alphanumeric at h
  unfold claimed_filename_char
  rw [decide_eq_true_eq] at h ⊢
  tauto

/-- **C8, amended.**  For a layout whose primary glyphs are ASCII
alphanumerics or characters of the substitution map's domain, the filename
contains only the claimed characters: alphanumerics, `'_'`, substitution
outputs, and the `.kbl` suffix.  (The restriction is forced by the
counterexample below: the parser accepts layouts with other glyphs, such
as `'='`, which pass through to the filename unchanged.) -/
theorem layout_to_filename_safe (L : List Key)
    (h : ∀ k ∈ L, ascii_alphanumeric k.1 = true ∨ k.1 ∈ subst_domain) :
    ∀ c ∈ layout_to_filename L, claimed_filename_char c = true := by
  intro c hc
  unfold layout_to_filename at hc
  rw [List.mem_append] at hc
  rcases hc with hc | hc
  · rw [List.mem_flatMap] at hc
    obtain ⟨ik, hik, hcik⟩ := hc
    rw [List.mem_append] at hcik
    rcases hcik with hc' | hc'
    · have hu : c = '_' := by
        by_cases hcond : ik.1 = 10 ∨ ik.1 = 20
        · rw [if_pos hcond] at hc'
          simpa using hc'
        · rw [if_neg hcond] at hc'
          simp at hc'
      rw [hu]
      decide
    · have hceq : c = filename_subst ik.2.1 := by simpa using hc'
      have hmem : ik.2 ∈ L := List.snd_mem_of_mem_enum hik
      rcases h ik.2 hmem with ha | hd
      · rw [hceq, filename_subst_of_alnum _ ha]
        exact claimed_filename_char_of_alnum _ ha
      · rw [hceq]
        simp only [subst_domain, List.mem_cons, List.not_mem_nil,
          or_false] at hd
        rcases hd with h' | h' | h' | h' | h' | h' | h' | h' | h' | h' |
          h' | h' <;> rw [h'] <;> decide
  · have hm : c ∈ ['.', 'k', 'b', 'l'] := hc
    simp only [List.mem_cons, List.not_mem_nil, or_false] at hm
    rcases hm with h' | h' | h' | h' <;> rw [h'] <;> decide

/-- Witness for `layout_to_filename_safe` at a QWERTY layout. -/
theorem layout_to_filename_safe_witness :
    (∀ k ∈ c8_witness_layout,
      ascii_alphanumeric k.1 = true ∨ k.1 ∈ subst_domain) ∧
    (∀ c ∈ layout_to_filename c8_witness_layout,
      claimed_filename_char c = true) :=
  ⟨by decide, layout_to_filename_safe c8_witness_layout (by decide)⟩

/-- **C8, counterexample.**  The claim fails as stated: `c8_cx_layout` is
valid (the parser accepts `c8_cx_input` and returns it, its 30 keys have
unique glyphs), but its filename contains `'='`, which is neither
alphanumeric, nor `'_'`, nor an output of the substitution map, nor part of
`.kbl`. -/
theorem layout_to_filename_counterexample :
    layout_from_str c8_cx_input = .ok c8_cx_layout ∧
    '=' ∈ layout_to_filename c8_cx_layout ∧
    claimed_filename_char '=' = false ∧
    (layout_to_filename c8_cx_layout).all claimed_filename_char = false := by
  refine ⟨rfl, by decide, by decide, by decide⟩

/-! #### The neighbor generator (C9) -/

theorem multiset_range_map_swap (a b : ℕ) (ha : a < 30) (hb : b < 30) :
    (Multiset.range 30).map (Equiv.swap a b) = Multiset.range 30 := by
  have hfin : Finset.map (Equiv.swap a b).toEmbedding (Finset.range 30) =
      Finset.range 30 := by
    apply Finset.ext
    intro x
    rw [Finset.mem_map_equiv, Equiv.symm_swap, Finset.mem_range,
        Finset.mem_range]
    by_cases hx : x = a
    · subst hx
      rw [Equiv.swap_apply_left]
      exact iff_of_true hb ha
    · by_cases hx' : x = b
      · subst hx'
        rw [Equiv.swap_apply_right]
        exact iff_of_true ha hb
      · rw [Equiv.swap_apply_of_ne_of_ne hx hx']
  have := congrArg Finset.val hfin
  rw [Finset.map_val, Finset.range_val, Equiv.coe_toEmbedding] at this
  exact this

/-- Swapping two in-range key positions preserves the key multiset. -/
theorem key_multiset_swap (a b : ℕ) (ha : a < 30) (hb : b < 30)
    (l : ℕ → Key) : key_multiset (swap_keys a b l) = key_multiset l := by
  have hpt : swap_keys a b l = fun k => l (Equiv.swap a b k) := by
    funext k
    rw [swap_keys, Equiv.swap_apply_def]
    by_cases h1 : k = a
    · simp [h1]
    · by_cases h2 : k = b
      · have hba : ¬ b = a := fun hh => h1 (h2.trans hh)
        simp [h1, h2, hba]
      · simp [h1, h2]
  rw [key_multiset, hpt]
  calc (Multiset.range 30).map (fun k => l (Equiv.swap a b k))
      = ((Multiset.range 30).map (Equiv.swap a b)).map l := by
        rw [Multiset.map_map]; rfl
    _ = (Multiset.range 30).map l := by
        rw [multiset_range_map_swap a b ha hb]

theorem getD_lt_30 (ns : List ℕ) (h : ∀ x ∈ ns, x < 30) :
    ∀ i, ns.getD i 0 < 30 := by
  induction ns with
  | nil => intro i; rw [List.getD_nil]; decide
  | cons c cs ih =>
    intro i
    cases i with
    | zero => exact h c (List.mem_cons_self c cs)
    | succ n => exact ih (fun x hx => h x (List.mem_cons_of_mem c hx)) n

theorem symmetric_key_order_lt_30 : ∀ x ∈ symmetric_key_order, x < 30 := by
  decide

theorem finger_keys_i_lt_30 (bt : KeyboardType) (st : Hand) (f : ℕ) :
    ∀ x ∈ finger_keys_i bt st f, x < 30 := fun x hx =>
  symmetric_key_order_lt_30 x (List.mem_of_mem_filter hx)

/-- A fold of in-range swaps preserves the key multiset. -/
theorem key_multiset_fold_swaps {α : Type} (f g : α → ℕ)
    (hf : ∀ x, f x < 30) (hg : ∀ x, g x < 30) (xs : List α) :
    ∀ l : ℕ → Key,
      key_multiset (xs.foldl (fun lay x => swap_keys (f x) (g x) lay) l) =
        key_multiset l := by
  induction xs with
  | nil => intro l; rfl
  | cons x xs ih =>
    intro l
    rw [List.foldl_cons, ih, key_multiset_swap _ _ (hf x) (hg x)]

/-- **C9.** For every board type, thumb configuration, layout and random
draw, the layout returned by `neighbor` has the same multiset of 30 keys —
and hence of primary glyphs — as its input, in both the key-pair-swap
branch and the finger-swap branch; the same holds for any sequence of
repeated applications. -/
theorem neighbor_preserves_multiset (bt : KeyboardType) (st : Hand) :
    (∀ (d : NeighborDraw) (l : ℕ → Key),
      key_multiset (neighbor bt st d l) = key_multiset l ∧
      primary_multiset (neighbor bt st d l) = primary_multiset l) ∧
    (∀ (ds : List NeighborDraw) (l : ℕ → Key),
      key_multiset (neighbor_iter bt st ds l) = key_multiset l ∧
      primary_multiset (neighbor_iter bt st ds l) = primary_multiset l) := by
  have single : ∀ (d : NeighborDraw) (l : ℕ → Key),
      key_multiset (neighbor bt st d l) = key_multiset l := by
    intro d l
    rw [neighbor]
    split_ifs with hop
    · apply key_multiset_swap
      · have := d.r.isLt
        omega
      · exact Nat.mod_lt _ (by norm_num)
    · apply key_multiset_fold_swaps
      · intro ab
        exact getD_lt_30 _ (finger_keys_i_lt_30 bt st _) ab.1
      · intro ab
        exact getD_lt_30 _ (finger_keys_i_lt_30 bt st _) ab.2
  have iter : ∀ (ds : List NeighborDraw) (l : ℕ → Key),
      key_multiset (neighbor_iter bt st ds l) = key_multiset l := by
    intro ds
    induction ds with
    | nil => intro l; rfl
    | cons d ds ih =>
      intro l
      rw [neighbor_iter, List.foldl_cons]
      rw [show List.foldl (fun lay d => neighbor bt st d lay) (neighbor bt st d l) ds =
        neighbor_iter bt st ds (neighbor bt st d l) from rfl]
      rw [ih, single]
  refine ⟨fun d l => ⟨single d l, ?_⟩, fun ds l => ⟨iter ds l, ?_⟩⟩
  · rw [primary_multiset, primary_multiset, single]
  · rw [primary_multiset, primary_multiset, iter]

end Kuehlmak
